import Mathlib

set_option maxHeartbeats 1000000

-- Verification of the pwho PROXY-protocol-v1 core: the buffered socket
-- adapter (SocketBuffer), the CRLF line reader (read_line), the PROXY line
-- parser (parse_line) and the probe orchestration (proxy_protocol), embedded
-- shallowly from pwho/__init__.py.  Bytes are modelled as Nat (0..255), byte
-- strings as List Nat, the underlying socket's receive path as a list of
-- chunks (each chunk a byte list; a recv call delivers bytes from the head
-- chunk), and io.BytesIO as an explicit (data, pos) pair so that the
-- stream-position behaviour of the source is preserved.

/-- Byte list of an ASCII string literal (each char as its code point). -/
def String.toB (s : String) : List Nat := s.data.map (fun c => c.toNat)

namespace Pwho

-- CRLF = b'\r\n'
def CRLF : List Nat := [13, 10]

-- io.BytesIO, modelled as BytesBuf: a growable byte buffer with a stream position.
structure BytesBuf where
  data : List Nat
  pos : Nat
deriving DecidableEq, Repr

def BytesBuf.getvalue (bio : BytesBuf) : List Nat := bio.data

def BytesBuf.tell (bio : BytesBuf) : Nat := bio.pos

-- buf.seek(0)
def BytesBuf.seek0 (bio : BytesBuf) : BytesBuf := ⟨bio.data, 0⟩

-- buf.write(x): overwrite at the current position, extending as needed.
def BytesBuf.write (bio : BytesBuf) (x : List Nat) : BytesBuf :=
  ⟨bio.data.take bio.pos ++ x ++ bio.data.drop (bio.pos + x.length), bio.pos + x.length⟩

-- buf.truncate(): drop everything after the current position.
def BytesBuf.truncate (bio : BytesBuf) : BytesBuf := ⟨bio.data.take bio.pos, bio.pos⟩

-- collections.namedtuple ProxyInfo.  parse_line stores the address fields as
-- the raw bytes it received; the ports are Python ints.
structure ProxyInfo where
  source_address : List Nat
  source_port : Int
  destination_address : List Nat
  destination_port : Int
deriving DecidableEq, Repr

-- A peer address as held in client_address: (host, port).
abbrev Addr : Type := List Nat × Int

-- The underlying stream socket's receive path: the byte stream as it will be
-- chunked by successive recv calls, plus the connection's peer address.
-- sock.recv(n) delivers the head chunk (all of it if it has at most n bytes,
-- otherwise its first n bytes, the rest staying queued); an exhausted chunk
-- list models EOF (recv returns b'').
def sockRecv (n : Nat) : List (List Nat) → List Nat × List (List Nat)
  | [] => ([], [])
  | c :: rest => if c.length ≤ n then (c, rest) else (c.take n, c.drop n :: rest)

-- Total number of bytes still queued on the socket.
def totalLen (sock : List (List Nat)) : Nat := (sock.map List.length).sum

-- SocketBuffer: wraps a socket, interposing a BytesBuf in the receive path.
structure SocketBuffer where
  sock : List (List Nat)
  peer : Addr
  buf : BytesBuf
deriving DecidableEq, Repr

def SocketBuffer.getpeername (s : SocketBuffer) : Addr := s.peer

-- SocketBuffer.unread: data = bytes + self.buf.getvalue(); seek(0); write(data)
def SocketBuffer.unread (s : SocketBuffer) (x : List Nat) : SocketBuffer :=
  let data := x ++ s.buf.getvalue
  ⟨s.sock, s.peer, (s.buf.seek0).write data⟩

-- SocketBuffer.recv
def SocketBuffer.recv (s : SocketBuffer) (bufsize : Nat) : List Nat × SocketBuffer :=
  if s.buf.tell = 0 then
    let r := sockRecv bufsize s.sock
    (r.1, ⟨r.2, s.peer, s.buf⟩)
  else
    let data := s.buf.getvalue
    let bio := s.buf.seek0
    if data.length > bufsize then
      ((data.take bufsize), ⟨s.sock, s.peer, (bio.write (data.drop bufsize)).truncate⟩)
    else
      (data, ⟨s.sock, s.peer, bio.truncate⟩)

-- SocketBuffer.recvfrom: peer address is queried from the underlying socket.
def SocketBuffer.recvfrom (s : SocketBuffer) (bufsize : Nat) :
    (List Nat × Addr) × SocketBuffer :=
  if s.buf.tell = 0 then
    let r := sockRecv bufsize s.sock
    ((r.1, s.peer), ⟨r.2, s.peer, s.buf⟩)
  else
    let r := s.recv bufsize
    ((r.1, s.peer), r.2)

-- SocketBuffer.recv_into: the caller's byte buffer is modelled by its
-- capacity; the bytes written into it and the returned count are delivered.
def SocketBuffer.recv_into (s : SocketBuffer) (bufcap : Nat) (nbytes : Nat) :
    (List Nat × Nat) × SocketBuffer :=
  if s.buf.tell = 0 then
    let r := sockRecv (if nbytes = 0 then bufcap else nbytes) s.sock
    ((r.1, r.1.length), ⟨r.2, s.peer, s.buf⟩)
  else
    let r := s.recv (if nbytes = 0 then bufcap else nbytes)
    ((r.1, r.1.length), r.2)

def SocketBuffer.recvfrom_into (s : SocketBuffer) (bufcap : Nat) (nbytes : Nat) :
    ((List Nat × Nat) × Addr) × SocketBuffer :=
  if s.buf.tell = 0 then
    let r := s.recv_into bufcap nbytes
    ((r.1, s.peer), r.2)
  else
    let r := s.recv_into bufcap nbytes
    ((r.1, s.peer), r.2)

-- SocketBuffer.close: self.buf.seek(0); self.buf.truncate(); self.sock.close()
def SocketBuffer.close (s : SocketBuffer) : SocketBuffer :=
  ⟨s.sock, s.peer, (s.buf.seek0).truncate⟩

-- Read-side errors (exc.ReadError): LineTooLong(length, limit), NoLine(size).
inductive RErr where
  | lineTooLong (length : Nat) (limit : Option Nat)
  | noLine (size : Nat)
deriving DecidableEq, Repr

-- Parse-side error (exc.ParseError): InvalidLine(reason, line).  The message
-- is '{0} - {1}'.format(reason, line) and the stored attribute is the second
-- constructor argument, exactly as in exc.InvalidLine.__init__.
inductive PErr where
  | invalidLine (reason : List Nat) (line : List Nat)
deriving DecidableEq, Repr

def PErr.lineAttr : PErr → List Nat
  | .invalidLine _ l => l

def PErr.message : PErr → List Nat
  | .invalidLine r l => r ++ (" - ".toB) ++ l

-- bytes.find(b'\r\n'): index of the first CRLF occurrence, none if absent.
def findCRLF : List Nat → Option Nat
  | [] => none
  | [_] => none
  | c1 :: c2 :: t =>
    if c1 = 13 ∧ c2 = 10 then some 0 else (findCRLF (c2 :: t)).map (· + 1)

-- Python's `limit and x > limit`: no check when limit is None, and (by
-- falsiness) none when limit == 0.
def limitHit (limit : Option Nat) (x : Nat) : Bool :=
  match limit with
  | none => false
  | some l => decide (0 < l ∧ l < x)

-- read_line(sock, buffer, read_size, limit): accumulate chunks into the
-- BytesBuf until it contains CRLF, then split off the line.  Returns the
-- result together with the final buffer and socket states (the Python
-- function mutates both).
def read_line (sock : List (List Nat)) (buffer : BytesBuf) (read_size : Nat)
    (limit : Option Nat) : Except RErr (List Nat) × BytesBuf × List (List Nat) :=
  match findCRLF buffer.getvalue with
  | some idx =>
    if limitHit limit (idx + 2) then
      (.error (.lineTooLong idx limit), buffer, sock)
    else
      (.ok (buffer.getvalue.take (idx + 2)),
       ((buffer.seek0).write (buffer.getvalue.drop (idx + 2))).truncate, sock)
  | none =>
    if limitHit limit (buffer.getvalue.length + 2) then
      (.error (.lineTooLong buffer.getvalue.length limit), buffer, sock)
    else
      match hr : sockRecv read_size sock with
      | (data, sock') =>
        if hd : data = [] then
          (.error (.noLine buffer.getvalue.length), buffer, sock')
        else
          read_line sock' (buffer.write data) read_size limit
termination_by totalLen sock
decreasing_by
  cases sock with
  | nil =>
    simp only [sockRecv, Prod.mk.injEq] at hr
    exact absurd hr.1.symm hd
  | cons c rest =>
    simp only [sockRecv] at hr
    by_cases hcl : c.length ≤ read_size
    · rw [if_pos hcl] at hr
      have h1 : c = data := congrArg Prod.fst hr
      have h2 : rest = sock' := congrArg Prod.snd hr
      have hc : 0 < c.length := by
        cases c with
        | nil => exact absurd h1.symm hd
        | cons a t => simp
      rw [← h2]
      simp only [totalLen, List.map_cons, List.sum_cons]
      omega
    · rw [if_neg hcl] at hr
      have h1 : c.take read_size = data := congrArg Prod.fst hr
      have h2 : c.drop read_size :: rest = sock' := congrArg Prod.snd hr
      have hrs : read_size ≠ 0 := by
        intro h0
        apply hd
        rw [← h1, h0]
        simp
      rw [← h2]
      simp only [totalLen, List.map_cons, List.sum_cons, List.length_drop]
      omega

-- bytes.split(sep) with an explicit one-byte separator (Python semantics:
-- adjacent separators and separators at the ends produce empty fields;
-- splitting the empty string gives one empty field).
def splitOnByte (sep : Nat) : List Nat → List (List Nat)
  | [] => [[]]
  | c :: rest =>
    if c = sep then [] :: splitOnByte sep rest
    else
      match splitOnByte sep rest with
      | g :: gs => (c :: g) :: gs
      | [] => [[c]]

def isDigitB (c : Nat) : Bool := 48 ≤ c && c ≤ 57

-- Whitespace stripped by Python's int(): ' \t\n\r\v\f'.
def isSpaceB (c : Nat) : Bool :=
  c == 32 || c == 9 || c == 10 || c == 13 || c == 11 || c == 12

def digitsVal (ds : List Nat) : Nat := ds.foldl (fun acc c => acc * 10 + (c - 48)) 0

def stripB (s : List Nat) : List Nat :=
  ((s.dropWhile isSpaceB).reverse.dropWhile isSpaceB).reverse

def pyIntDigits (ds : List Nat) : Option Int :=
  if ds ≠ [] && ds.all isDigitB then some (digitsVal ds : Int) else none

-- Python 2 int(bytes): optional surrounding whitespace, optional single
-- sign, then a nonempty run of decimal digits; anything else is a
-- ValueError (modelled as none).
def pyInt (s : List Nat) : Option Int :=
  match stripB s with
  | 43 :: ds => pyIntDigits ds
  | 45 :: ds => (pyIntDigits ds).map (fun n => -n)
  | ds => pyIntDigits ds

-- Modelled from the spec: socket.inet_pton(socket.AF_INET, addr) is C
-- library code outside this repository; per the spec it accepts exactly the
-- standard dotted-decimal form: four '.'-separated fields, each a nonempty
-- run of decimal digits with value at most 255 and no leading zero.
def noLeadZero (p : List Nat) : Bool :=
  match p with
  | 48 :: _ :: _ => false
  | _ => true

def ipv4PartOk (p : List Nat) : Bool :=
  !p.isEmpty && p.all isDigitB && noLeadZero p && decide (digitsVal p ≤ 255)

def validIPv4 (a : List Nat) : Bool :=
  let ps := splitOnByte 46 a
  ps.length == 4 && ps.all ipv4PartOk

def isHexB (c : Nat) : Bool :=
  isDigitB c || (97 ≤ c && c ≤ 102) || (65 ≤ c && c ≤ 70)

def v6Group (g : List Nat) : Bool :=
  !g.isEmpty && decide (g.length ≤ 4) && g.all isHexB

-- Modelled from the spec: socket.inet_pton(socket.AF_INET6, addr) is C
-- library code outside this repository; per the spec it accepts IPv6 textual
-- literals in any compression style: eight ':'-separated hex groups of one
-- to four digits, or a single '::' compression standing for at least one
-- zero group (IPv4-embedded tails are not modelled).
def validIPv6 (a : List Nat) : Bool :=
  let gs := splitOnByte 58 a
  if gs.countP (fun g => g.isEmpty) == 0 then
    gs.length == 8 && gs.all v6Group
  else if gs == [[], [], []] then
    true
  else
    match gs with
    | [] :: [] :: rest =>
      !rest.isEmpty && rest.all (fun g => !g.isEmpty && v6Group g) &&
        decide (rest.length ≤ 7)
    | _ =>
      match gs.reverse with
      | [] :: [] :: rest =>
        !rest.isEmpty && rest.all (fun g => !g.isEmpty && v6Group g) &&
          decide (rest.length ≤ 7)
      | _ =>
        gs.countP (fun g => g.isEmpty) == 1 && decide (gs.length ≤ 8) &&
          gs.all (fun g => g.isEmpty || v6Group g) &&
          (match gs with | g0 :: _ => !g0.isEmpty | _ => false) &&
          (match gs.getLast? with | some gl => !gl.isEmpty | none => false)

-- The space-delimited fields of line[:-2], as parse_line computes them.
def lineParts (line : List Nat) : List (List Nat) :=
  splitOnByte 32 (line.take (line.length - CRLF.length))

-- The INET-family/address validation step of parse_line (the if/elif/else
-- chain over parts[1:4] in the source), as a result value.
def inetCheck (inet src_addr dst_addr : List Nat) (line : List Nat) : Except PErr Unit :=
  if inet = ("TCP4".toB) then
    if validIPv4 src_addr && validIPv4 dst_addr then .ok ()
    else .error (.invalidLine (("Invalid INET ".toB) ++ inet ++ (" address(es)".toB)) line)
  else if inet = ("TCP6".toB) then
    if validIPv6 src_addr && validIPv6 dst_addr then .ok ()
    else .error (.invalidLine (("Invalid INET ".toB) ++ inet ++ (" address(es)".toB)) line)
  else
    .error (.invalidLine (("Unsupported INET \"".toB) ++ inet ++ ("\"".toB)) line)

-- parse_line(line): decode one CRLF-terminated PROXY v1 line.  Mirrors the
-- source check-by-check; note that the port-failure branch raises
-- exc.InvalidLine(line, 'Invalid port') with the arguments in that order,
-- exactly as written in the source.
def parse_line (line : List Nat) : Except PErr ProxyInfo :=
  if ¬ (("PROXY".toB).isPrefixOf line) then
    .error (.invalidLine ("Missing \"PROXY\" prefix".toB) line)
  else if ¬ (CRLF.isSuffixOf line) then
    .error (.invalidLine ("Missing \"\\r\\n\" terminal".toB) line)
  else
    let parts := lineParts line
    if parts.length ≠ 6 then
      .error (.invalidLine ("Expected 6 \" \" delimited parts".toB) line)
    else
      match inetCheck parts[1]! parts[2]! parts[3]! line with
      | .error e => .error e
      | .ok _ =>
        match pyInt parts[4]!, pyInt parts[5]! with
        | some src_port, some dst_port =>
          .ok ⟨parts[2]!, src_port, parts[3]!, dst_port⟩
        | _, _ => .error (.invalidLine line ("Invalid port".toB))

-- StreamRequestMixin.proxy_authenticate: destination must be the peer.
def proxy_authenticate (info : ProxyInfo) (client_address : Addr) : Bool :=
  decide ((info.destination_address, info.destination_port) = client_address)

-- default='peer': a ProxyInfo built from the connection's peer address.
def peerDefault (peer : Addr) : ProxyInfo := ⟨peer.1, peer.2, peer.1, peer.2⟩

-- The error policy argument; the source validates it is one of
-- 'raise'/'unread' (modelled by the type itself).
inductive Policy where
  | raise
  | unread
deriving DecidableEq, Repr

inductive PPErr where
  | readErr (e : RErr)
  | parseErr (e : PErr)
deriving DecidableEq, Repr

-- StreamRequestMixin.proxy_protocol: probe the buffered request for a PROXY
-- line.  hook stands for self.proxy_authenticate (overridable); deflt is the
-- already-resolved default value.  The Python method mutates
-- self.request.buf and the socket; both are threaded explicitly.
def proxy_protocol (hook : ProxyInfo → Bool) (policy : Policy)
    (deflt : Option ProxyInfo) (limit : Option Nat) (authenticate : Bool)
    (s : SocketBuffer) : Except PPErr (Option ProxyInfo) × SocketBuffer :=
  let rl := read_line s.sock s.buf 256 limit
  let s' : SocketBuffer := ⟨rl.2.2, s.peer, rl.2.1⟩
  match rl.1 with
  | .error e =>
    match policy with
    | .raise => (.error (.readErr e), s')
    | .unread => (.ok deflt, s')
  | .ok line =>
    match parse_line line with
    | .error e =>
      match policy with
      | .raise => (.error (.parseErr e), s')
      | .unread => (.ok deflt, s'.unread line)
    | .ok info =>
      if authenticate && !(hook info) then (.ok deflt, s')
      else (.ok (some info), s')

-- The logical byte stream a caller of the adapter observes from this point
-- on: pending buffer content first, then the socket's remaining bytes.
def streamOf (s : SocketBuffer) : List Nat := s.buf.getvalue ++ (s.sock).flatten

-- The position invariant of the BytesBuf as the adapter uses it: the stream
-- position always sits at the end of the content.
def posInv (bio : BytesBuf) : Prop := bio.tell = bio.getvalue.length

-- An adapter operation issued by the application.
inductive SBOp where
  | unread (x : List Nat)
  | recv (n : Nat)
deriving DecidableEq, Repr

-- Run a sequence of adapter operations, concatenating all bytes delivered
-- by the recv calls.
def runOps (s : SocketBuffer) : List SBOp → List Nat × SocketBuffer
  | [] => ([], s)
  | .unread x :: ops => runOps (s.unread x) ops
  | .recv n :: ops =>
    let r := s.recv n
    let rest := runOps r.2 ops
    (r.1 ++ rest.1, rest.2)

-- Concrete byte strings used in the end-to-end statements.

def bigPortLine : List Nat := "PROXY TCP4 192.168.0.1 192.168.0.11 99999 443\r\n".toB

def hiyaLine : List Nat := "hiya\r\n".toB

def goodLine : List Nat := "PROXY TCP4 192.168.0.1 192.168.0.11 56324 443\r\n".toB

def abcLine : List Nat := "PROXY TCP4 192.168.0.1 192.168.0.11 abc 443\r\n".toB

def proxyxLine : List Nat := "PROXYx TCP4 192.168.0.1 192.168.0.11 56324 443\r\n".toB

-- Basic facts about the socket chunk model.

theorem sockRecv_flatten (n : Nat) (sock : List (List Nat)) :
    (sockRecv n sock).1 ++ (sockRecv n sock).2.flatten = sock.flatten := by
  cases sock with
  | nil => simp [sockRecv]
  | cons c rest =>
    simp only [sockRecv]
    by_cases h : c.length ≤ n
    · rw [if_pos h]; simp
    · rw [if_neg h]
      simp [← List.append_assoc, List.take_append_drop]

theorem sockRecv_len (n : Nat) (sock : List (List Nat)) :
    (sockRecv n sock).1.length ≤ n := by
  cases sock with
  | nil => simp [sockRecv]
  | cons c rest =>
    simp only [sockRecv]
    by_cases h : c.length ≤ n
    · rw [if_pos h]; exact h
    · rw [if_neg h]; simp

theorem sockRecv_ne (n : Nat) (sock : List (List Nat))
    (h : ∀ c ∈ sock, c ≠ []) : ∀ c ∈ (sockRecv n sock).2, c ≠ [] := by
  cases sock with
  | nil => simp [sockRecv]
  | cons c rest =>
    simp only [sockRecv]
    by_cases hl : c.length ≤ n
    · rw [if_pos hl]
      intro d hd
      exact h d (List.mem_cons_of_mem c hd)
    · rw [if_neg hl]
      intro d hd
      rcases List.mem_cons.mp hd with h1 | h2
      · subst h1
        have : 0 < (c.drop n).length := by
          rw [List.length_drop]; omega
        exact List.ne_nil_of_length_pos this
      · exact h d (List.mem_cons_of_mem c h2)

theorem sockRecv_out_ne (n : Nat) (sock : List (List Nat)) (hn : 0 < n)
    (hs : sock ≠ []) (h : ∀ c ∈ sock, c ≠ []) : (sockRecv n sock).1 ≠ [] := by
  cases sock with
  | nil => exact absurd rfl hs
  | cons c rest =>
    have hc : c ≠ [] := h c (List.mem_cons_self c rest)
    simp only [sockRecv]
    by_cases hl : c.length ≤ n
    · rw [if_pos hl]; exact hc
    · rw [if_neg hl]
      have : 0 < (c.take n).length := by
        rw [List.length_take]
        have : 0 < c.length := List.length_pos.mpr hc
        omega
      exact List.ne_nil_of_length_pos this

theorem sockRecv_total_lt (n : Nat) (sock : List (List Nat))
    (h : (sockRecv n sock).1 ≠ []) :
    totalLen (sockRecv n sock).2 < totalLen sock := by
  cases sock with
  | nil => simp [sockRecv] at h
  | cons c rest =>
    simp only [sockRecv] at h ⊢
    by_cases hl : c.length ≤ n
    · rw [if_pos hl] at h ⊢
      have : 0 < c.length := List.length_pos.mpr h
      simp only [totalLen, List.map_cons, List.sum_cons]
      omega
    · rw [if_neg hl] at h ⊢
      have hn : 0 < n := by
        by_contra h0
        apply h
        have : n = 0 := by omega
        simp [this]
      simp only [totalLen, List.map_cons, List.sum_cons, List.length_drop]
      omega

-- Facts about bytes.find(b'\r\n').

theorem findCRLF_le (l : List Nat) :
    ∀ i, findCRLF l = some i → i + 2 ≤ l.length := by
  induction l using findCRLF.induct with
  | case1 => intro i h; simp [findCRLF] at h
  | case2 a => intro i h; simp [findCRLF] at h
  | case3 c1 c2 tl hc =>
    intro i h
    rw [findCRLF, if_pos hc] at h
    cases h
    simp
  | case4 c1 c2 tl hc ih =>
    intro i h
    rw [findCRLF, if_neg hc] at h
    rcases Option.map_eq_some'.mp h with ⟨j, hj, rfl⟩
    have := ih j hj
    simp at this ⊢
    omega

theorem findCRLF_append (l ext : List Nat) :
    ∀ i, findCRLF l = some i → findCRLF (l ++ ext) = some i := by
  induction l using findCRLF.induct with
  | case1 => intro i h; simp [findCRLF] at h
  | case2 a => intro i h; simp [findCRLF] at h
  | case3 c1 c2 tl hc =>
    intro i h
    rw [findCRLF, if_pos hc] at h
    cases h
    rw [List.cons_append, List.cons_append, findCRLF, if_pos hc]
  | case4 c1 c2 tl hc ih =>
    intro i h
    rw [findCRLF, if_neg hc] at h
    rcases Option.map_eq_some'.mp h with ⟨j, hj, rfl⟩
    rw [List.cons_append, List.cons_append, findCRLF, if_neg hc]
    rw [← List.cons_append, ih j hj]
    rfl

theorem findCRLF_none_bound (l ext : List Nat) :
    ∀ i, findCRLF l = none → findCRLF (l ++ ext) = some i → l.length ≤ i + 1 := by
  induction l using findCRLF.induct with
  | case1 => intro i _ _; simp
  | case2 a => intro i _ _; simp
  | case3 c1 c2 tl hc =>
    intro i hn h
    rw [findCRLF, if_pos hc] at hn
    cases hn
  | case4 c1 c2 tl hc ih =>
    intro i hn h
    rw [findCRLF, if_neg hc] at hn
    have hn2 : findCRLF (c2 :: tl) = none := Option.map_eq_none'.mp hn
    rw [List.cons_append, List.cons_append, findCRLF, if_neg hc] at h
    rw [← List.cons_append] at h
    rcases Option.map_eq_some'.mp h with ⟨j, hj, rfl⟩
    have := ih j hn2 hj
    simp at this ⊢
    omega

-- Evaluation of the BytesBuf operations as the adapter uses them.

theorem seek0_write_truncate (d : List Nat) (p : Nat) (x : List Nat) :
    (((BytesBuf.mk d p).seek0).write x).truncate = ⟨x, x.length⟩ := by
  simp only [BytesBuf.seek0, BytesBuf.write, BytesBuf.truncate, List.take_zero,
    List.nil_append, Nat.zero_add, BytesBuf.mk.injEq]
  constructor
  · rw [List.take_append_of_le_length (Nat.le_refl x.length)]
    simp
  · trivial

theorem seek0_truncate (d : List Nat) (p : Nat) :
    ((BytesBuf.mk d p).seek0).truncate = ⟨[], 0⟩ := by
  simp [BytesBuf.seek0, BytesBuf.truncate]

theorem write_at_end (bio : BytesBuf) (x : List Nat) (h : posInv bio) :
    bio.write x = ⟨bio.data ++ x, bio.data.length + x.length⟩ := by
  obtain ⟨d, p⟩ := bio
  simp only [posInv, BytesBuf.tell, BytesBuf.getvalue] at h
  subst h
  simp only [BytesBuf.write, BytesBuf.mk.injEq]
  constructor
  · rw [List.take_length, List.drop_eq_nil_of_le (by omega)]
    simp
  · trivial

theorem unread_eval (s : SocketBuffer) (x : List Nat) :
    s.unread x =
      ⟨s.sock, s.peer, ⟨x ++ s.buf.getvalue, (x ++ s.buf.getvalue).length⟩⟩ := by
  obtain ⟨sock, peer, d, p⟩ := s
  simp only [SocketBuffer.unread, BytesBuf.seek0, BytesBuf.write, BytesBuf.getvalue,
    List.take_zero, List.nil_append, Nat.zero_add, SocketBuffer.mk.injEq,
    BytesBuf.mk.injEq, true_and]
  constructor
  · rw [List.drop_eq_nil_of_le (by simp)]
    simp
  · simp

theorem posInv_unread (s : SocketBuffer) (x : List Nat) :
    posInv (s.unread x).buf := by
  rw [unread_eval]
  simp [posInv, BytesBuf.tell, BytesBuf.getvalue]

-- Evaluation of SocketBuffer.recv in its three branches.

theorem recv_sock (s : SocketBuffer) (n : Nat) (ht : s.buf.tell = 0) :
    s.recv n = ((sockRecv n s.sock).1, ⟨(sockRecv n s.sock).2, s.peer, s.buf⟩) := by
  simp [SocketBuffer.recv, ht]

theorem recv_buffered_all (s : SocketBuffer) (n : Nat) (ht : s.buf.tell ≠ 0)
    (hle : s.buf.getvalue.length ≤ n) :
    s.recv n = (s.buf.getvalue, ⟨s.sock, s.peer, ⟨[], 0⟩⟩) := by
  obtain ⟨sock, peer, d, p⟩ := s
  simp only [BytesBuf.getvalue] at hle ⊢
  simp only [SocketBuffer.recv, BytesBuf.tell] at ht ⊢
  rw [if_neg ht, if_neg (by simp [BytesBuf.getvalue]; omega)]
  rw [seek0_truncate]
  simp [BytesBuf.getvalue]

theorem recv_buffered_take (s : SocketBuffer) (n : Nat) (ht : s.buf.tell ≠ 0)
    (hgt : n < s.buf.getvalue.length) :
    s.recv n = (s.buf.getvalue.take n,
      ⟨s.sock, s.peer, ⟨s.buf.getvalue.drop n, s.buf.getvalue.length - n⟩⟩) := by
  obtain ⟨sock, peer, d, p⟩ := s
  simp only [BytesBuf.getvalue] at hgt ⊢
  simp only [SocketBuffer.recv, BytesBuf.tell] at ht ⊢
  rw [if_neg ht, if_pos (by simp [BytesBuf.getvalue]; omega)]
  rw [seek0_write_truncate]
  simp [BytesBuf.getvalue]

theorem posInv_write (bio : BytesBuf) (x : List Nat) (h : posInv bio) :
    posInv (bio.write x) := by
  rw [write_at_end bio x h]
  simp [posInv, BytesBuf.tell, BytesBuf.getvalue]

theorem posInv_recv (s : SocketBuffer) (n : Nat) (h : posInv s.buf) :
    posInv (s.recv n).2.buf := by
  by_cases ht : s.buf.tell = 0
  · rw [recv_sock s n ht]; exact h
  · by_cases hgt : n < s.buf.getvalue.length
    · rw [recv_buffered_take s n ht hgt]
      simp [posInv, BytesBuf.tell, BytesBuf.getvalue]
    · rw [recv_buffered_all s n ht (by omega)]
      simp [posInv, BytesBuf.tell, BytesBuf.getvalue]

theorem posInv_empty_iff (bio : BytesBuf) (h : posInv bio) :
    bio.tell = 0 ↔ bio.getvalue = [] := by
  simp only [posInv] at h
  rw [h]
  exact List.length_eq_zero

theorem recv_stream (s : SocketBuffer) (n : Nat) (h : posInv s.buf) :
    (s.recv n).1 ++ streamOf (s.recv n).2 = streamOf s := by
  by_cases ht : s.buf.tell = 0
  · have hbe : s.buf.getvalue = [] := (posInv_empty_iff s.buf h).mp ht
    rw [recv_sock s n ht]
    simp [streamOf, hbe, sockRecv_flatten]
  · by_cases hgt : n < s.buf.getvalue.length
    · rw [recv_buffered_take s n ht hgt]
      simp [streamOf, BytesBuf.getvalue, ← List.append_assoc, List.take_append_drop]
    · rw [recv_buffered_all s n ht (by omega)]
      simp [streamOf, BytesBuf.getvalue]

theorem recv_len_le (s : SocketBuffer) (n : Nat) : (s.recv n).1.length ≤ n := by
  by_cases ht : s.buf.tell = 0
  · rw [recv_sock s n ht]; exact sockRecv_len n s.sock
  · by_cases hgt : n < s.buf.getvalue.length
    · rw [recv_buffered_take s n ht hgt]; simp
    · rw [recv_buffered_all s n ht (by omega)]
      exact Nat.le_of_not_lt hgt

theorem recv_sock_unchanged (s : SocketBuffer) (n : Nat) (h : posInv s.buf)
    (hne : s.buf.getvalue ≠ []) : (s.recv n).2.sock = s.sock := by
  have ht : s.buf.tell ≠ 0 := fun h0 => hne ((posInv_empty_iff s.buf h).mp h0)
  by_cases hgt : n < s.buf.getvalue.length
  · rw [recv_buffered_take s n ht hgt]
  · rw [recv_buffered_all s n ht (by omega)]

theorem runOps_recvs (ns : List Nat) : ∀ s : SocketBuffer, posInv s.buf →
    (runOps s (ns.map SBOp.recv)).1 ++ streamOf (runOps s (ns.map SBOp.recv)).2
      = streamOf s := by
  induction ns with
  | nil => intro s _; simp [runOps]
  | cons n ns ih =>
    intro s h
    simp only [List.map_cons, runOps]
    rw [List.append_assoc, ih (s.recv n).2 (posInv_recv s n h), recv_stream s n h]

-- Preservation of the position invariant by read_line, by induction on the
-- number of bytes still queued on the socket.

theorem read_line_posInv : ∀ (N : Nat) (sock : List (List Nat)) (buffer : BytesBuf)
    (rs : Nat) (limit : Option Nat), totalLen sock ≤ N → posInv buffer →
    posInv (read_line sock buffer rs limit).2.1 := by
  intro N
  induction N using Nat.strong_induction_on with
  | _ N ih =>
    intro sock buffer rs limit hN hp
    rw [read_line]
    cases hf : findCRLF buffer.getvalue with
    | some idx =>
      by_cases hl : limitHit limit (idx + 2)
      · simp only [hl, if_true]
        exact hp
      · simp only [hl, Bool.false_eq_true, if_false]
        obtain ⟨d, p⟩ := buffer
        rw [seek0_write_truncate]
        simp [posInv, BytesBuf.tell, BytesBuf.getvalue]
    | none =>
      by_cases hl : limitHit limit (buffer.getvalue.length + 2)
      · simp only [hl, if_true]
        exact hp
      · simp only [hl, Bool.false_eq_true, if_false]
        cases hsr : sockRecv rs sock with
        | mk data sock' =>
          by_cases hd : data = []
          · simp only [hd, dif_pos]
            exact hp
          · simp only [dif_neg hd]
            have hlt : totalLen sock' < totalLen sock := by
              have := sockRecv_total_lt rs sock (by rw [hsr]; exact hd)
              rw [hsr] at this
              exact this
            exact ih (totalLen sock') (by omega) sock' (buffer.write data) rs limit
              (Nat.le_refl _) (posInv_write buffer data hp)

theorem seek0_write_truncate' (bio : BytesBuf) (x : List Nat) :
    (((bio.seek0).write x)).truncate = ⟨x, x.length⟩ := by
  obtain ⟨d, p⟩ := bio
  exact seek0_write_truncate d p x

-- On success, read_line only moves bytes around: the returned line, the
-- surplus left in the buffer and the bytes still queued on the socket
-- together are exactly the original logical stream.

theorem read_line_conserve : ∀ (N : Nat) (sock : List (List Nat)) (buffer : BytesBuf)
    (rs : Nat) (limit : Option Nat) (line : List Nat) (nb : BytesBuf)
    (sock₂ : List (List Nat)),
    totalLen sock ≤ N → posInv buffer →
    read_line sock buffer rs limit = (.ok line, nb, sock₂) →
    line ++ nb.getvalue ++ sock₂.flatten = buffer.getvalue ++ sock.flatten := by
  intro N
  induction N using Nat.strong_induction_on with
  | _ N ih =>
    intro sock buffer rs limit line nb sock₂ hN hp heq
    revert heq
    rw [read_line]
    cases hf : findCRLF buffer.getvalue with
    | some idx =>
      by_cases hl : limitHit limit (idx + 2)
      · simp only [hl, if_true]
        intro heq
        simp at heq
      · simp only [hl, Bool.false_eq_true, if_false]
        rw [seek0_write_truncate']
        intro heq
        simp only [Prod.mk.injEq, Except.ok.injEq] at heq
        obtain ⟨h1, h2, h3⟩ := heq
        subst h1
        subst h3
        rw [← h2]
        simp only [BytesBuf.getvalue]
        rw [List.take_append_drop]
    | none =>
      by_cases hl : limitHit limit (buffer.getvalue.length + 2)
      · simp only [hl, if_true]
        intro heq
        simp at heq
      · simp only [hl, Bool.false_eq_true, if_false]
        cases hsr : sockRecv rs sock with
        | mk data sock' =>
          by_cases hd : data = []
          · simp only [hd, dif_pos]
            intro heq
            simp at heq
          · simp only [dif_neg hd]
            intro heq
            have hlt : totalLen sock' < totalLen sock := by
              have := sockRecv_total_lt rs sock (by rw [hsr]; exact hd)
              rw [hsr] at this
              exact this
            have hrec := ih (totalLen sock') (by omega) sock' (buffer.write data) rs
              limit line nb sock₂ (Nat.le_refl _) (posInv_write buffer data hp) heq
            rw [write_at_end buffer data hp] at hrec
            simp only [BytesBuf.getvalue] at hrec ⊢
            rw [hrec]
            have hfl : data ++ sock'.flatten = sock.flatten := by
              have := sockRecv_flatten rs sock
              rw [hsr] at this
              simpa using this
            rw [List.append_assoc, hfl]

-- Whenever the logical stream contains CRLF and no limit check can fire,
-- read_line succeeds with exactly the stream prefix through the first CRLF,
-- leaving the rest of the stream (buffered surplus first, unread socket
-- bytes after) for subsequent reads.

theorem read_line_success : ∀ (N : Nat) (sock : List (List Nat)) (buffer : BytesBuf)
    (rs : Nat) (limit : Option Nat) (idx : Nat),
    totalLen sock ≤ N → 0 < rs → posInv buffer → (∀ c ∈ sock, c ≠ []) →
    findCRLF (buffer.getvalue ++ sock.flatten) = some idx →
    (∀ k, k ≤ idx + 3 → limitHit limit k = false) →
    ∃ nb sock₂,
      read_line sock buffer rs limit =
        (.ok ((buffer.getvalue ++ sock.flatten).take (idx + 2)), nb, sock₂) ∧
      nb.getvalue ++ sock₂.flatten = (buffer.getvalue ++ sock.flatten).drop (idx + 2) ∧
      posInv nb ∧ (∀ c ∈ sock₂, c ≠ []) := by
  intro N
  induction N using Nat.strong_induction_on with
  | _ N ih =>
    intro sock buffer rs limit idx hN hrs hp hne hfind hlim
    rw [read_line]
    cases hf : findCRLF buffer.getvalue with
    | some i =>
      have hi : findCRLF (buffer.getvalue ++ sock.flatten) = some i :=
        findCRLF_append buffer.getvalue sock.flatten i hf
      have hidx : i = idx := by
        rw [hfind] at hi
        exact (Option.some.inj hi).symm
      subst hidx
      have hle : i + 2 ≤ buffer.getvalue.length := findCRLF_le buffer.getvalue i hf
      have hl : limitHit limit (i + 2) = false := hlim (i + 2) (by omega)
      simp only [hl, Bool.false_eq_true, if_false]
      rw [seek0_write_truncate']
      refine ⟨⟨buffer.getvalue.drop (i + 2), (buffer.getvalue.drop (i + 2)).length⟩,
        sock, ?_, ?_, ?_, ?_⟩
      · have ht : (buffer.getvalue ++ sock.flatten).take (i + 2) = buffer.getvalue.take (i + 2) := by
          rw [List.take_append_eq_append_take]
          have h0 : i + 2 - buffer.getvalue.length = 0 := by omega
          rw [h0]
          simp
        rw [ht]
      · have hd : (buffer.getvalue ++ sock.flatten).drop (i + 2) =
            buffer.getvalue.drop (i + 2) ++ sock.flatten := by
          rw [List.drop_append_eq_append_drop]
          have h0 : i + 2 - buffer.getvalue.length = 0 := by omega
          rw [h0]
          simp
        rw [hd]
        simp [BytesBuf.getvalue]
      · simp [posInv, BytesBuf.tell, BytesBuf.getvalue]
      · exact hne
    | none =>
      have hdn : buffer.getvalue.length ≤ idx + 1 :=
        findCRLF_none_bound buffer.getvalue sock.flatten idx hf hfind
      have hl2 : limitHit limit (buffer.getvalue.length + 2) = false :=
        hlim (buffer.getvalue.length + 2) (by omega)
      simp only [hl2, Bool.false_eq_true, if_false]
      cases hsr : sockRecv rs sock with
      | mk data sock' =>
        have hsock_ne : sock ≠ [] := by
          intro h0
          subst h0
          simp only [List.flatten_nil, List.append_nil] at hfind
          rw [hf] at hfind
          cases hfind
        have hdne : data ≠ [] := by
          have := sockRecv_out_ne rs sock hrs hsock_ne hne
          rw [hsr] at this
          exact this
        simp only [dif_neg hdne]
        have hlt : totalLen sock' < totalLen sock := by
          have := sockRecv_total_lt rs sock (by rw [hsr]; exact hdne)
          rw [hsr] at this
          exact this
        have hne' : ∀ c ∈ sock', c ≠ [] := by
          have := sockRecv_ne rs sock hne
          rw [hsr] at this
          exact this
        have hfl : data ++ sock'.flatten = sock.flatten := by
          have := sockRecv_flatten rs sock
          rw [hsr] at this
          simpa using this
        have hstream : (buffer.write data).getvalue ++ sock'.flatten =
            buffer.getvalue ++ sock.flatten := by
          rw [write_at_end buffer data hp]
          simp only [BytesBuf.getvalue]
          rw [List.append_assoc, hfl]
        obtain ⟨nb, sock₂, e1, e2, e3, e4⟩ :=
          ih (totalLen sock') (by omega) sock' (buffer.write data) rs limit idx
            (Nat.le_refl _) hrs (posInv_write buffer data hp) hne'
            (by rw [hstream]; exact hfind) hlim
        refine ⟨nb, sock₂, ?_, ?_, e3, e4⟩
        · rw [e1, hstream]
        · rw [e2, hstream]

-- Every LineTooLong failure of read_line carries the limit it was called
-- with and an accumulated length within two bytes of that limit.

theorem read_line_ltl : ∀ (N : Nat) (sock : List (List Nat)) (buffer : BytesBuf)
    (rs : Nat) (L : Nat) (len : Nat) (lim' : Option Nat) (nb : BytesBuf)
    (sock₂ : List (List Nat)),
    totalLen sock ≤ N →
    read_line sock buffer rs (some L) = (.error (.lineTooLong len lim'), nb, sock₂) →
    lim' = some L ∧ L < len + 2 ∧ 0 < L := by
  intro N
  induction N using Nat.strong_induction_on with
  | _ N ih =>
    intro sock buffer rs L len lim' nb sock₂ hN heq
    revert heq
    rw [read_line]
    cases hf : findCRLF buffer.getvalue with
    | some idx =>
      by_cases hl : limitHit (some L) (idx + 2)
      · simp only [hl, if_true]
        intro heq
        simp only [Prod.mk.injEq, Except.error.injEq, RErr.lineTooLong.injEq] at heq
        obtain ⟨⟨h1, h2⟩, _⟩ := heq
        subst h1
        subst h2
        simp only [limitHit, decide_eq_true_eq] at hl
        exact ⟨rfl, by omega, by omega⟩
      · simp only [hl, Bool.false_eq_true, if_false]
        intro heq
        simp at heq
    | none =>
      by_cases hl : limitHit (some L) (buffer.getvalue.length + 2)
      · simp only [hl, if_true]
        intro heq
        simp only [Prod.mk.injEq, Except.error.injEq, RErr.lineTooLong.injEq] at heq
        obtain ⟨⟨h1, h2⟩, _⟩ := heq
        subst h1
        subst h2
        simp only [limitHit, decide_eq_true_eq] at hl
        exact ⟨rfl, by omega, by omega⟩
      · simp only [hl, Bool.false_eq_true, if_false]
        cases hsr : sockRecv rs sock with
        | mk data sock' =>
          by_cases hd : data = []
          · simp only [hd, dif_pos]
            intro heq
            simp at heq
          · simp only [dif_neg hd]
            intro heq
            have hlt : totalLen sock' < totalLen sock := by
              have := sockRecv_total_lt rs sock (by rw [hsr]; exact hd)
              rw [hsr] at this
              exact this
            exact ih (totalLen sock') (by omega) sock' (buffer.write data) rs L len
              lim' nb sock₂ (Nat.le_refl _) heq

-- Inversion of a successful parse: every check must have passed, and the
-- returned record is built from fields 2..5 of the split header.

theorem parse_line_ok_inv (line : List Nat) (info : ProxyInfo)
    (h : parse_line line = .ok info) :
    ("PROXY".toB).isPrefixOf line = true ∧
    CRLF.isSuffixOf line = true ∧
    (lineParts line).length = 6 ∧
    info.source_address = (lineParts line)[2]! ∧
    info.destination_address = (lineParts line)[3]! ∧
    pyInt ((lineParts line)[4]!) = some info.source_port ∧
    pyInt ((lineParts line)[5]!) = some info.destination_port := by
  unfold parse_line at h
  by_cases h1 : ("PROXY".toB).isPrefixOf line = true
  · rw [if_neg (not_not_intro h1)] at h
    by_cases h2 : CRLF.isSuffixOf line = true
    · rw [if_neg (not_not_intro h2)] at h
      dsimp only at h
      by_cases h3 : (lineParts line).length = 6
      · rw [if_neg (not_not_intro h3)] at h
        cases hic : inetCheck (lineParts line)[1]! (lineParts line)[2]! (lineParts line)[3]! line with
        | error e => rw [hic] at h; exact absurd h (by simp)
        | ok u =>
          rw [hic] at h
          cases hp4 : pyInt ((lineParts line)[4]!) with
          | none =>
            rw [hp4] at h
            cases hp5 : pyInt ((lineParts line)[5]!) with
            | none => rw [hp5] at h; exact absurd h (by simp)
            | some dp => rw [hp5] at h; exact absurd h (by simp)
          | some sp =>
            rw [hp4] at h
            cases hp5 : pyInt ((lineParts line)[5]!) with
            | none => rw [hp5] at h; exact absurd h (by simp)
            | some dp =>
              rw [hp5] at h
              simp only [Except.ok.injEq] at h
              subst h
              exact ⟨h1, h2, h3, rfl, rfl, rfl, rfl⟩
      · rw [if_pos h3] at h
        exact absurd h (by simp)
    · rw [if_pos h2] at h
      exact absurd h (by simp)
  · rw [if_pos h1] at h
    exact absurd h (by simp)

-- Forward evaluation of parse_line once the prefix, terminator, field-count
-- and INET checks are known to pass: only the port parses remain.

theorem parse_line_eval (line : List Nat)
    (h1 : ("PROXY".toB).isPrefixOf line = true)
    (h2 : CRLF.isSuffixOf line = true)
    (h3 : (lineParts line).length = 6)
    (h4 : inetCheck (lineParts line)[1]! (lineParts line)[2]! (lineParts line)[3]! line = .ok ()) :
    parse_line line =
      match pyInt ((lineParts line)[4]!), pyInt ((lineParts line)[5]!) with
      | some sp, some dp => .ok ⟨(lineParts line)[2]!, sp, (lineParts line)[3]!, dp⟩
      | _, _ => .error (.invalidLine line ("Invalid port".toB)) := by
  unfold parse_line
  rw [if_neg (not_not_intro h1), if_neg (not_not_intro h2)]
  dsimp only
  rw [if_neg (not_not_intro h3), h4]

/-- C5: parse_line on b"PROXY TCP4 192.168.0.1 192.168.0.11 56324 443\r\n"
returns ProxyInfo(192.168.0.1, 56324, 192.168.0.11, 443); and in general, for
every line it accepts, the space-split header has exactly 6 fields, fields 2
and 3 (0-based) become source_address and destination_address byte-for-byte
with no normalization, and the parsed numeric fields 4 and 5 become
source_port and destination_port. -/
theorem parse_line_example_and_field_mapping :
    parse_line goodLine =
      .ok ⟨"192.168.0.1".toB, 56324, "192.168.0.11".toB, 443⟩ ∧
    ∀ (line : List Nat) (info : ProxyInfo), parse_line line = .ok info →
      (lineParts line).length = 6 ∧
      info.source_address = (lineParts line)[2]! ∧
      info.destination_address = (lineParts line)[3]! ∧
      pyInt ((lineParts line)[4]!) = some info.source_port ∧
      pyInt ((lineParts line)[5]!) = some info.destination_port := by
  constructor
  · rfl
  · intro line info h
    have hi := parse_line_ok_inv line info h
    exact ⟨hi.2.2.1, hi.2.2.2.1, hi.2.2.2.2.1, hi.2.2.2.2.2.1, hi.2.2.2.2.2.2⟩

/-- C5 witness: the general field mapping instantiated at the example line. -/
theorem parse_line_example_and_field_mapping_witness :
    (lineParts goodLine).length = 6 ∧
    (ProxyInfo.mk ("192.168.0.1".toB) 56324 ("192.168.0.11".toB) 443).source_address
      = (lineParts goodLine)[2]! ∧
    (ProxyInfo.mk ("192.168.0.1".toB) 56324 ("192.168.0.11".toB) 443).destination_address
      = (lineParts goodLine)[3]! ∧
    pyInt ((lineParts goodLine)[4]!)
      = some (ProxyInfo.mk ("192.168.0.1".toB) 56324 ("192.168.0.11".toB) 443).source_port ∧
    pyInt ((lineParts goodLine)[5]!)
      = some (ProxyInfo.mk ("192.168.0.1".toB) 56324 ("192.168.0.11".toB) 443).destination_port :=
  parse_line_example_and_field_mapping.2 goodLine
    ⟨"192.168.0.1".toB, 56324, "192.168.0.11".toB, 443⟩ rfl

/-- C6 counterexample: the claim says every accepted input has first field
exactly 'PROXY', but parse_line only checks startswith(b'PROXY'): the line
b"PROXYx TCP4 192.168.0.1 192.168.0.11 56324 443\r\n" is accepted although
its first field is 'PROXYx'. -/
theorem parse_line_prefix_counterexample :
    parse_line proxyxLine =
      .ok ⟨"192.168.0.1".toB, 56324, "192.168.0.11".toB, 443⟩ ∧
    (lineParts proxyxLine)[0]! = "PROXYx".toB ∧
    (lineParts proxyxLine)[0]! ≠ "PROXY".toB := by
  refine ⟨rfl, rfl, ?_⟩
  decide

/-- C6 (amended): parse_line returns a ProxyInfo only for inputs that end
with CRLF, split into exactly 6 space-delimited fields, and start with the
token 'PROXY' (the first field need only start with 'PROXY', not equal it);
conversely, any input not starting with 'PROXY' fails with InvalidLine
citing the missing prefix. -/
theorem parse_line_grammar_soundness_amended :
    (∀ (line : List Nat) (info : ProxyInfo), parse_line line = .ok info →
      CRLF.isSuffixOf line = true ∧ (lineParts line).length = 6 ∧
      ("PROXY".toB).isPrefixOf line = true) ∧
    (∀ line : List Nat, ¬ (("PROXY".toB).isPrefixOf line = true) →
      parse_line line = .error (.invalidLine ("Missing \"PROXY\" prefix".toB) line)) := by
  constructor
  · intro line info h
    have hi := parse_line_ok_inv line info h
    exact ⟨hi.2.1, hi.2.2.1, hi.1⟩
  · intro line h
    unfold parse_line
    rw [if_pos h]

/-- C6 witness: both amended directions at concrete inputs. -/
theorem parse_line_grammar_soundness_amended_witness :
    (CRLF.isSuffixOf goodLine = true ∧ (lineParts goodLine).length = 6 ∧
      ("PROXY".toB).isPrefixOf goodLine = true) ∧
    parse_line hiyaLine = .error (.invalidLine ("Missing \"PROXY\" prefix".toB) hiyaLine) :=
  ⟨parse_line_grammar_soundness_amended.1 goodLine
      ⟨"192.168.0.1".toB, 56324, "192.168.0.11".toB, 443⟩ rfl,
   parse_line_grammar_soundness_amended.2 hiyaLine (by decide)⟩

/-- C7: for every line passing the prefix, terminator, field-count and
family/address checks, parse_line fails with InvalidLine exactly when a port
field does not parse as a base-10 integer; no 0..65535 range check exists,
so any parsed integer port is accepted and returned unchanged. -/
theorem parse_line_port_permissiveness (line : List Nat)
    (h1 : ("PROXY".toB).isPrefixOf line = true)
    (h2 : CRLF.isSuffixOf line = true)
    (h3 : (lineParts line).length = 6)
    (h4 : inetCheck (lineParts line)[1]! (lineParts line)[2]! (lineParts line)[3]! line = .ok ()) :
    ((pyInt ((lineParts line)[4]!) = none ∨ pyInt ((lineParts line)[5]!) = none) ↔
      parse_line line = .error (.invalidLine line ("Invalid port".toB))) ∧
    (∀ sp dp : Int, pyInt ((lineParts line)[4]!) = some sp →
      pyInt ((lineParts line)[5]!) = some dp →
      parse_line line = .ok ⟨(lineParts line)[2]!, sp, (lineParts line)[3]!, dp⟩) := by
  have he := parse_line_eval line h1 h2 h3 h4
  constructor
  · constructor
    · intro hor
      rw [he]
      rcases hor with hn | hn
      · rw [hn]
      · rw [hn]
        cases pyInt ((lineParts line)[4]!) <;> rfl
    · intro herr
      cases hp4 : pyInt ((lineParts line)[4]!) with
      | none => exact Or.inl rfl
      | some sp =>
        cases hp5 : pyInt ((lineParts line)[5]!) with
        | none => exact Or.inr rfl
        | some dp =>
          rw [he, hp4, hp5] at herr
          exact absurd herr (by simp)
  · intro sp dp hp4 hp5
    rw [he, hp4, hp5]

/-- C7 witness: a port above 65535 (99999) is accepted and returned as-is. -/
theorem parse_line_port_permissiveness_witness :
    parse_line bigPortLine =
      .ok ⟨(lineParts bigPortLine)[2]!, 99999, (lineParts bigPortLine)[3]!, 443⟩ :=
  (parse_line_port_permissiveness bigPortLine (by decide) (by decide) (by decide)
    (by rfl)).2 99999 443 (by rfl) (by rfl)

/-- C8: the spec says every InvalidLine carries (reason, offending line) with
the stored line attribute equal to the offending input; at a non-integer
port field the source calls InvalidLine(line, 'Invalid port') with the
arguments swapped, so the stored line attribute is the reason string
'Invalid port' instead of the offending line — the code contradicts its own
exception contract. -/
theorem invalid_port_payload_swapped :
    parse_line abcLine = .error (.invalidLine abcLine ("Invalid port".toB)) ∧
    (PErr.invalidLine abcLine ("Invalid port".toB)).lineAttr = "Invalid port".toB ∧
    (PErr.invalidLine abcLine ("Invalid port".toB)).lineAttr ≠ abcLine := by
  refine ⟨rfl, rfl, ?_⟩
  decide

-- streamOf interaction with the adapter operations.

theorem streamOf_unread (s : SocketBuffer) (x : List Nat) :
    streamOf (s.unread x) = x ++ streamOf s := by
  rw [unread_eval]
  simp [streamOf, BytesBuf.getvalue]

theorem posInv_close (s : SocketBuffer) : posInv s.close.buf := by
  obtain ⟨sock, peer, d, p⟩ := s
  simp only [SocketBuffer.close]
  rw [seek0_truncate]
  simp [posInv, BytesBuf.tell, BytesBuf.getvalue]

theorem posInv_recvfrom (s : SocketBuffer) (n : Nat) (h : posInv s.buf) :
    posInv (s.recvfrom n).2.buf := by
  by_cases ht : s.buf.tell = 0
  · simp only [SocketBuffer.recvfrom, if_pos ht]
    exact h
  · simp only [SocketBuffer.recvfrom, if_neg ht]
    exact posInv_recv s n h

theorem posInv_recv_into (s : SocketBuffer) (cap nb : Nat) (h : posInv s.buf) :
    posInv (s.recv_into cap nb).2.buf := by
  by_cases ht : s.buf.tell = 0
  · simp only [SocketBuffer.recv_into, if_pos ht]
    exact h
  · simp only [SocketBuffer.recv_into, if_neg ht]
    exact posInv_recv s _ h

theorem posInv_recvfrom_into (s : SocketBuffer) (cap nb : Nat) (h : posInv s.buf) :
    posInv (s.recvfrom_into cap nb).2.buf := by
  by_cases ht : s.buf.tell = 0
  · simp only [SocketBuffer.recvfrom_into, if_pos ht]
    exact posInv_recv_into s cap nb h
  · simp only [SocketBuffer.recvfrom_into, if_neg ht]
    exact posInv_recv_into s cap nb h

/-- C1: the SocketBuffer adapter is transparent: unread prepends exactly the
restored bytes to the logical stream; every recv delivers a prefix of the
logical stream (never more than the requested count) and leaves the rest;
recv does not touch the underlying socket while buffered bytes remain;
immediately after unread(b) on a fresh adapter, recv(n) returns b[:n] when
n ≤ len(b) and exactly b (the socket then supplying subsequent reads) when
n > len(b); and over any run of recv calls after an unread, the bytes
delivered followed by the remaining stream are the restored bytes followed
by the socket's byte stream. -/
theorem adapter_transparency :
    (∀ (s : SocketBuffer) (x : List Nat), streamOf (s.unread x) = x ++ streamOf s) ∧
    (∀ (s : SocketBuffer) (n : Nat), posInv s.buf →
      (s.recv n).1 ++ streamOf (s.recv n).2 = streamOf s) ∧
    (∀ (s : SocketBuffer) (n : Nat), (s.recv n).1.length ≤ n) ∧
    (∀ (s : SocketBuffer) (n : Nat), posInv s.buf → s.buf.getvalue ≠ [] →
      (s.recv n).2.sock = s.sock) ∧
    (∀ (sock : List (List Nat)) (peer : Addr) (x : List Nat) (n : Nat), x ≠ [] →
      n ≤ x.length →
      (((SocketBuffer.mk sock peer ⟨[], 0⟩).unread x).recv n).1 = x.take n) ∧
    (∀ (sock : List (List Nat)) (peer : Addr) (x : List Nat) (n : Nat), x ≠ [] →
      x.length < n →
      (((SocketBuffer.mk sock peer ⟨[], 0⟩).unread x).recv n).1 = x ∧
      streamOf (((SocketBuffer.mk sock peer ⟨[], 0⟩).unread x).recv n).2 = sock.flatten) ∧
    (∀ (sock : List (List Nat)) (peer : Addr) (x : List Nat) (ns : List Nat),
      (runOps ((SocketBuffer.mk sock peer ⟨[], 0⟩).unread x) (ns.map SBOp.recv)).1 ++
        streamOf (runOps ((SocketBuffer.mk sock peer ⟨[], 0⟩).unread x) (ns.map SBOp.recv)).2
        = x ++ sock.flatten) := by
  have hfresh : ∀ (sock : List (List Nat)) (peer : Addr) (x : List Nat),
      (SocketBuffer.mk sock peer ⟨[], 0⟩).unread x
        = SocketBuffer.mk sock peer ⟨x, x.length⟩ := by
    intro sock peer x
    rw [unread_eval]
    simp [BytesBuf.getvalue]
  refine ⟨streamOf_unread, recv_stream, recv_len_le, recv_sock_unchanged, ?_, ?_, ?_⟩
  · intro sock peer x n hx hn
    rw [hfresh]
    by_cases hlt : n < x.length
    · rw [recv_buffered_take _ n (by simpa [BytesBuf.tell, List.length_eq_zero] using hx) (by simpa [BytesBuf.getvalue] using hlt)]
      simp [BytesBuf.getvalue]
    · have hlen : x.length = n := by omega
      rw [recv_buffered_all _ n (by simpa [BytesBuf.tell, List.length_eq_zero] using hx) (by simp [BytesBuf.getvalue]; omega)]
      simp [BytesBuf.getvalue, ← hlen]
  · intro sock peer x n hx hn
    rw [hfresh]
    rw [recv_buffered_all _ n (by simpa [BytesBuf.tell, List.length_eq_zero] using hx) (by simp [BytesBuf.getvalue]; omega)]
    constructor
    · simp [BytesBuf.getvalue]
    · simp [streamOf, BytesBuf.getvalue]
  · intro sock peer x ns
    rw [runOps_recvs ns _ (posInv_unread _ x), streamOf_unread]
    simp [streamOf, BytesBuf.getvalue]

/-- C1 witness: the transparency statements instantiated on a concrete
adapter holding socket bytes "cd" with "ab" unread in front. -/
theorem adapter_transparency_witness :
    (((SocketBuffer.mk ["cd".toB] ([], 0) ⟨[], 0⟩).unread ("ab".toB)).recv 1).1
      = ("ab".toB).take 1 ∧
    ((SocketBuffer.mk ["cd".toB] ([], 0) ⟨[], 0⟩).recv 5).1 ++
      streamOf ((SocketBuffer.mk ["cd".toB] ([], 0) ⟨[], 0⟩).recv 5).2
      = streamOf (SocketBuffer.mk ["cd".toB] ([], 0) ⟨[], 0⟩) ∧
    (runOps ((SocketBuffer.mk ["cd".toB] ([], 0) ⟨[], 0⟩).unread ("ab".toB))
        ([3, 3].map SBOp.recv)).1 ++
      streamOf (runOps ((SocketBuffer.mk ["cd".toB] ([], 0) ⟨[], 0⟩).unread ("ab".toB))
        ([3, 3].map SBOp.recv)).2
      = "ab".toB ++ (["cd".toB] : List (List Nat)).flatten :=
  ⟨adapter_transparency.2.2.2.2.1 ["cd".toB] ([], 0) ("ab".toB) 1 (by decide) (by decide),
   adapter_transparency.2.1 (SocketBuffer.mk ["cd".toB] ([], 0) ⟨[], 0⟩) 5 rfl,
   adapter_transparency.2.2.2.2.2.2 ["cd".toB] ([], 0) ("ab".toB) [3, 3]⟩

/-- C10: every operation that touches the pending buffer (unread, recv,
close, the recvfrom/recv_into/recvfrom_into variants, and read_line) leaves
the BytesBuf stream position equal to its content length; consequently the
position test `not self.buf.tell()` is a correct buffer-emptiness test. -/
theorem socketbuffer_position_invariant :
    (∀ (s : SocketBuffer) (x : List Nat), posInv (s.unread x).buf) ∧
    (∀ (s : SocketBuffer) (n : Nat), posInv s.buf → posInv (s.recv n).2.buf) ∧
    (∀ s : SocketBuffer, posInv s.close.buf) ∧
    (∀ (s : SocketBuffer) (n : Nat), posInv s.buf → posInv (s.recvfrom n).2.buf) ∧
    (∀ (s : SocketBuffer) (cap nb : Nat), posInv s.buf → posInv (s.recv_into cap nb).2.buf) ∧
    (∀ (s : SocketBuffer) (cap nb : Nat), posInv s.buf → posInv (s.recvfrom_into cap nb).2.buf) ∧
    (∀ (sock : List (List Nat)) (buffer : BytesBuf) (rs : Nat) (limit : Option Nat),
      posInv buffer → posInv (read_line sock buffer rs limit).2.1) ∧
    (∀ bio : BytesBuf, posInv bio → (bio.tell = 0 ↔ bio.getvalue = [])) :=
  ⟨posInv_unread, posInv_recv, posInv_close, posInv_recvfrom, posInv_recv_into,
   posInv_recvfrom_into,
   fun sock buffer rs limit h =>
     read_line_posInv (totalLen sock) sock buffer rs limit (Nat.le_refl _) h,
   posInv_empty_iff⟩

/-- C10 witness: the invariant and the emptiness test at concrete states. -/
theorem socketbuffer_position_invariant_witness :
    posInv ((SocketBuffer.mk [] ([], 0) ⟨"ab".toB, 2⟩).recv 1).2.buf ∧
    posInv (read_line ["hiya\r\n".toB] (BytesBuf.mk [] 0) 256 none).2.1 ∧
    ((BytesBuf.mk ("ab".toB) 2).tell = 0 ↔ (BytesBuf.mk ("ab".toB) 2).getvalue = []) :=
  ⟨socketbuffer_position_invariant.2.1 (SocketBuffer.mk [] ([], 0) ⟨"ab".toB, 2⟩) 1 rfl,
   socketbuffer_position_invariant.2.2.2.2.2.2.1 ["hiya\r\n".toB] (BytesBuf.mk [] 0) 256 none rfl,
   socketbuffer_position_invariant.2.2.2.2.2.2.2 (BytesBuf.mk ("ab".toB) 2) rfl⟩

/-- C3: whenever the logical input stream (pending buffer content followed
by the socket's chunks) contains CRLF, read_line (with no limit) returns
exactly the stream prefix through and including the first CRLF — however
the bytes are chunked, including a terminator split across chunks — and the
bytes after the terminator remain available to subsequent reads: the surplus
it consumed sits in the pending buffer, followed by the unread socket bytes. -/
theorem read_line_success_postcondition (sock : List (List Nat)) (buffer : BytesBuf)
    (idx : Nat) (hp : posInv buffer) (hne : ∀ c ∈ sock, c ≠ [])
    (hfind : findCRLF (buffer.getvalue ++ sock.flatten) = some idx) :
    (read_line sock buffer 256 none).1
      = .ok ((buffer.getvalue ++ sock.flatten).take (idx + 2)) ∧
    (read_line sock buffer 256 none).2.1.getvalue
        ++ (read_line sock buffer 256 none).2.2.flatten
      = (buffer.getvalue ++ sock.flatten).drop (idx + 2) := by
  obtain ⟨nb, sock₂, e1, e2, e3, e4⟩ :=
    read_line_success (totalLen sock) sock buffer 256 none idx (Nat.le_refl _)
      (by omega) hp hne hfind (fun k _ => rfl)
  rw [e1]
  exact ⟨rfl, e2⟩

/-- C3 witness: a stream whose CRLF terminator is split across two chunks. -/
theorem read_line_success_postcondition_witness :
    (read_line ["ab\r".toB, "\ncd".toB] (BytesBuf.mk [] 0) 256 none).1
      = .ok (((BytesBuf.mk [] 0).getvalue
          ++ (["ab\r".toB, "\ncd".toB] : List (List Nat)).flatten).take (2 + 2)) ∧
    (read_line ["ab\r".toB, "\ncd".toB] (BytesBuf.mk [] 0) 256 none).2.1.getvalue
        ++ (read_line ["ab\r".toB, "\ncd".toB] (BytesBuf.mk [] 0) 256 none).2.2.flatten
      = (((BytesBuf.mk [] 0).getvalue
          ++ (["ab\r".toB, "\ncd".toB] : List (List Nat)).flatten).drop (2 + 2)) :=
  read_line_success_postcondition ["ab\r".toB, "\ncd".toB] (BytesBuf.mk [] 0) 2 rfl
    (by decide) (by rfl)

/-- C4 counterexample: with limit L = 4 and the stream "ab\r\n" chunked as
"ab\r" then "\n", the full line including CRLF is exactly 4 = L bytes (the
terminator arrives at L) and only 3 ≤ L bytes are ever accumulated before a
terminator is found, yet read_line fails with LineTooLong — refuting both
that it succeeds whenever a terminator arrives at or under L, and that it
fails only once accumulated bytes exceed L. -/
theorem read_line_limit_counterexample :
    read_line ["ab\r".toB, "\n".toB] (BytesBuf.mk [] 0) 256 (some 4)
      = (.error (.lineTooLong 3 (some 4)), BytesBuf.mk ("ab\r".toB) 3, ["\n".toB]) ∧
    findCRLF ((["ab\r".toB, "\n".toB] : List (List Nat)).flatten) = some 2 ∧
    2 + 2 ≤ 4 ∧ 3 ≤ 4 := by
  refine ⟨?_, rfl, by omega, by omega⟩
  simp [read_line, sockRecv, limitHit, findCRLF, BytesBuf.getvalue, BytesBuf.write,
    String.toB]

/-- C4 (amended): read_line with a positive limit L fails with LineTooLong
only once the reported byte count plus the two-byte terminator allowance
exceeds L (accumulated unterminated bytes > L - 2, or a found line longer
than L), and is guaranteed to succeed — returning the full line — whenever
the full line including CRLF is strictly under L bytes. -/
theorem read_line_limit_semantics_amended :
    (∀ (sock : List (List Nat)) (buffer : BytesBuf) (L len : Nat) (lim' : Option Nat)
      (nb : BytesBuf) (sock₂ : List (List Nat)),
      read_line sock buffer 256 (some L) = (.error (.lineTooLong len lim'), nb, sock₂) →
      lim' = some L ∧ L < len + 2 ∧ 0 < L) ∧
    (∀ (sock : List (List Nat)) (buffer : BytesBuf) (L idx : Nat),
      posInv buffer → (∀ c ∈ sock, c ≠ []) →
      findCRLF (buffer.getvalue ++ sock.flatten) = some idx →
      idx + 2 < L →
      (read_line sock buffer 256 (some L)).1
        = .ok ((buffer.getvalue ++ sock.flatten).take (idx + 2))) := by
  constructor
  · intro sock buffer L len lim' nb sock₂ h
    exact read_line_ltl (totalLen sock) sock buffer 256 L len lim' nb sock₂
      (Nat.le_refl _) h
  · intro sock buffer L idx hp hne hfind hlt
    have hlim : ∀ k, k ≤ idx + 3 → limitHit (some L) k = false := by
      intro k hk
      simp only [limitHit, decide_eq_false_iff_not]
      omega
    obtain ⟨nb, sock₂, e1, e2, e3, e4⟩ :=
      read_line_success (totalLen sock) sock buffer 256 (some L) idx (Nat.le_refl _)
        (by omega) hp hne hfind hlim
    rw [e1]

/-- C4 witness: both amended directions at concrete inputs: the L = 4 run of
the counterexample satisfies the amended failure bound, and a line of 4
bytes under limit 5 succeeds. -/
theorem read_line_limit_semantics_amended_witness :
    (some 4 = some 4 ∧ 4 < 3 + 2 ∧ 0 < 4) ∧
    (read_line ["ab\r\n".toB] (BytesBuf.mk [] 0) 256 (some 5)).1
      = .ok (((BytesBuf.mk [] 0).getvalue
          ++ (["ab\r\n".toB] : List (List Nat)).flatten).take (2 + 2)) :=
  ⟨read_line_limit_semantics_amended.1 ["ab\r".toB, "\n".toB] (BytesBuf.mk [] 0) 4 3
      (some 4) (BytesBuf.mk ("ab\r".toB) 3) ["\n".toB]
      (by simp [read_line, sockRecv, limitHit, findCRLF, BytesBuf.getvalue,
        BytesBuf.write, String.toB]),
   read_line_limit_semantics_amended.2 ["ab\r\n".toB] (BytesBuf.mk [] 0) 5 2 rfl
      (by decide) (by rfl) (by omega)⟩

-- Evaluation of proxy_protocol in each branch, given the read_line and
-- parse_line outcomes.

theorem pp_read_error_unread (hook : ProxyInfo → Bool) (deflt : Option ProxyInfo)
    (limit : Option Nat) (auth : Bool) (s : SocketBuffer) (e : RErr)
    (nb : BytesBuf) (sock₂ : List (List Nat))
    (h : read_line s.sock s.buf 256 limit = (.error e, nb, sock₂)) :
    proxy_protocol hook .unread deflt limit auth s = (.ok deflt, ⟨sock₂, s.peer, nb⟩) := by
  unfold proxy_protocol
  rw [h]

theorem pp_read_error_raise (hook : ProxyInfo → Bool) (deflt : Option ProxyInfo)
    (limit : Option Nat) (auth : Bool) (s : SocketBuffer) (e : RErr)
    (nb : BytesBuf) (sock₂ : List (List Nat))
    (h : read_line s.sock s.buf 256 limit = (.error e, nb, sock₂)) :
    proxy_protocol hook .raise deflt limit auth s
      = (.error (.readErr e), ⟨sock₂, s.peer, nb⟩) := by
  unfold proxy_protocol
  rw [h]

theorem pp_parse_error_unread (hook : ProxyInfo → Bool) (deflt : Option ProxyInfo)
    (limit : Option Nat) (auth : Bool) (s : SocketBuffer) (line : List Nat)
    (e : PErr) (nb : BytesBuf) (sock₂ : List (List Nat))
    (h1 : read_line s.sock s.buf 256 limit = (.ok line, nb, sock₂))
    (h2 : parse_line line = .error e) :
    proxy_protocol hook .unread deflt limit auth s
      = (.ok deflt, (SocketBuffer.mk sock₂ s.peer nb).unread line) := by
  unfold proxy_protocol
  rw [h1]
  dsimp only
  rw [h2]

theorem pp_parse_error_raise (hook : ProxyInfo → Bool) (deflt : Option ProxyInfo)
    (limit : Option Nat) (auth : Bool) (s : SocketBuffer) (line : List Nat)
    (e : PErr) (nb : BytesBuf) (sock₂ : List (List Nat))
    (h1 : read_line s.sock s.buf 256 limit = (.ok line, nb, sock₂))
    (h2 : parse_line line = .error e) :
    proxy_protocol hook .raise deflt limit auth s
      = (.error (.parseErr e), ⟨sock₂, s.peer, nb⟩) := by
  unfold proxy_protocol
  rw [h1]
  dsimp only
  rw [h2]

theorem pp_auth_failed (hook : ProxyInfo → Bool) (policy : Policy)
    (deflt : Option ProxyInfo) (limit : Option Nat) (s : SocketBuffer)
    (line : List Nat) (info : ProxyInfo) (nb : BytesBuf) (sock₂ : List (List Nat))
    (h1 : read_line s.sock s.buf 256 limit = (.ok line, nb, sock₂))
    (h2 : parse_line line = .ok info)
    (h3 : hook info = false) :
    proxy_protocol hook policy deflt limit true s = (.ok deflt, ⟨sock₂, s.peer, nb⟩) := by
  unfold proxy_protocol
  rw [h1]
  dsimp only
  rw [h2]
  dsimp only
  rw [h3]
  rfl

/-- C2: proxy_protocol error-to-action mapping: under policy 'unread' a
ReadError from read_line is suppressed and the default is returned with no
bytes restored (the state is exactly what read_line left); a ParseError from
parse_line is suppressed, the captured line is unread onto the adapter so
that the adapter's logical stream equals the original stream unchanged, and
the default is returned; under policy 'raise' both error kinds propagate
with no bytes restored.  End to end, a connection sending only b"hiya\r\n"
under 'unread' yields the default and a later recv yields exactly
b"hiya\r\n". -/
theorem proxy_protocol_error_mapping :
    (∀ (hook : ProxyInfo → Bool) (deflt : Option ProxyInfo) (limit : Option Nat)
      (auth : Bool) (s : SocketBuffer) (e : RErr) (nb : BytesBuf)
      (sock₂ : List (List Nat)),
      read_line s.sock s.buf 256 limit = (.error e, nb, sock₂) →
      proxy_protocol hook .unread deflt limit auth s
        = (.ok deflt, ⟨sock₂, s.peer, nb⟩)) ∧
    (∀ (hook : ProxyInfo → Bool) (deflt : Option ProxyInfo) (limit : Option Nat)
      (auth : Bool) (s : SocketBuffer) (line : List Nat) (e : PErr) (nb : BytesBuf)
      (sock₂ : List (List Nat)),
      posInv s.buf →
      read_line s.sock s.buf 256 limit = (.ok line, nb, sock₂) →
      parse_line line = .error e →
      proxy_protocol hook .unread deflt limit auth s
        = (.ok deflt, (SocketBuffer.mk sock₂ s.peer nb).unread line) ∧
      streamOf (proxy_protocol hook .unread deflt limit auth s).2 = streamOf s) ∧
    (∀ (hook : ProxyInfo → Bool) (deflt : Option ProxyInfo) (limit : Option Nat)
      (auth : Bool) (s : SocketBuffer) (e : RErr) (nb : BytesBuf)
      (sock₂ : List (List Nat)),
      read_line s.sock s.buf 256 limit = (.error e, nb, sock₂) →
      proxy_protocol hook .raise deflt limit auth s
        = (.error (.readErr e), ⟨sock₂, s.peer, nb⟩)) ∧
    (∀ (hook : ProxyInfo → Bool) (deflt : Option ProxyInfo) (limit : Option Nat)
      (auth : Bool) (s : SocketBuffer) (line : List Nat) (e : PErr) (nb : BytesBuf)
      (sock₂ : List (List Nat)),
      read_line s.sock s.buf 256 limit = (.ok line, nb, sock₂) →
      parse_line line = .error e →
      proxy_protocol hook .raise deflt limit auth s
        = (.error (.parseErr e), ⟨sock₂, s.peer, nb⟩)) ∧
    (proxy_protocol (fun _ => false) .unread none none false
        (SocketBuffer.mk [hiyaLine] ([], 0) ⟨[], 0⟩)
      = (.ok none, SocketBuffer.mk [] ([], 0) ⟨hiyaLine, 6⟩) ∧
     ((SocketBuffer.mk [] ([], 0) ⟨hiyaLine, 6⟩).recv 4096).1 = hiyaLine) := by
  have hread : read_line [hiyaLine] (⟨[], 0⟩ : BytesBuf) 256 none
      = (.ok hiyaLine, ⟨[], 0⟩, []) := by
    simp [read_line, sockRecv, limitHit, findCRLF, hiyaLine, String.toB,
      BytesBuf.getvalue, BytesBuf.write, BytesBuf.seek0, BytesBuf.truncate]
  refine ⟨pp_read_error_unread, ?_, pp_read_error_raise, pp_parse_error_raise, ?_, ?_⟩
  · intro hook deflt limit auth s line e nb sock₂ hp h1 h2
    have hpp := pp_parse_error_unread hook deflt limit auth s line e nb sock₂ h1 h2
    refine ⟨hpp, ?_⟩
    rw [hpp]
    rw [streamOf_unread]
    have hc := read_line_conserve (totalLen s.sock) s.sock s.buf 256 limit line nb
      sock₂ (Nat.le_refl _) hp h1
    simp only [streamOf]
    rw [← List.append_assoc, hc]
  · have hpp := pp_parse_error_unread (fun _ => false) none none false
      (SocketBuffer.mk [hiyaLine] ([], 0) ⟨[], 0⟩) hiyaLine
      (.invalidLine ("Missing \"PROXY\" prefix".toB) hiyaLine) ⟨[], 0⟩ [] hread rfl
    rw [hpp, unread_eval]
    simp [BytesBuf.getvalue, hiyaLine, String.toB]
  · simp [SocketBuffer.recv, BytesBuf.tell, BytesBuf.getvalue, BytesBuf.seek0,
      BytesBuf.truncate, hiyaLine, String.toB]

/-- C2 witness: the parse-error branch instantiated on the hiya connection:
the default is returned and the adapter's stream is fully restored. -/
theorem proxy_protocol_error_mapping_witness :
    (proxy_protocol (fun _ => false) .unread none none false
        (SocketBuffer.mk [hiyaLine] ([], 0) ⟨[], 0⟩)
      = (.ok none, (SocketBuffer.mk [] ([], 0) ⟨[], 0⟩).unread hiyaLine) ∧
     streamOf (proxy_protocol (fun _ => false) .unread none none false
        (SocketBuffer.mk [hiyaLine] ([], 0) ⟨[], 0⟩)).2
      = streamOf (SocketBuffer.mk [hiyaLine] ([], 0) ⟨[], 0⟩)) :=
  proxy_protocol_error_mapping.2.1 (fun _ => false) none none false
    (SocketBuffer.mk [hiyaLine] ([], 0) ⟨[], 0⟩) hiyaLine
    (.invalidLine ("Missing \"PROXY\" prefix".toB) hiyaLine) ⟨[], 0⟩ [] rfl
    (by simp [read_line, sockRecv, limitHit, findCRLF, hiyaLine, String.toB,
      BytesBuf.getvalue, BytesBuf.write, BytesBuf.seek0, BytesBuf.truncate])
    rfl

/-- C9: the default proxy_authenticate hook accepts exactly when the parsed
destination address and port equal the connection's actual peer address and
port; and whenever probe is invoked with authentication requested and the
hook rejects the parsed info, proxy_protocol returns the default value — the
ProxyInfo is never exposed and no exception is raised. -/
theorem proxy_authenticate_default_and_fail_closed :
    (∀ (info : ProxyInfo) (ca : Addr),
      proxy_authenticate info ca = true ↔
        (info.destination_address, info.destination_port) = ca) ∧
    (∀ (hook : ProxyInfo → Bool) (policy : Policy) (deflt : Option ProxyInfo)
      (limit : Option Nat) (s : SocketBuffer) (line : List Nat) (info : ProxyInfo)
      (nb : BytesBuf) (sock₂ : List (List Nat)),
      read_line s.sock s.buf 256 limit = (.ok line, nb, sock₂) →
      parse_line line = .ok info →
      hook info = false →
      proxy_protocol hook policy deflt limit true s
        = (.ok deflt, ⟨sock₂, s.peer, nb⟩)) := by
  constructor
  · intro info ca
    simp [proxy_authenticate]
  · exact pp_auth_failed

/-- C9 witness: a rejecting hook on a valid PROXY line yields the default. -/
theorem proxy_authenticate_default_and_fail_closed_witness :
    (proxy_authenticate ⟨"a".toB, 1, "b".toB, 2⟩ (("b".toB : List Nat), (2 : Int)) = true ↔
      ((ProxyInfo.mk ("a".toB) 1 ("b".toB) 2).destination_address,
        (ProxyInfo.mk ("a".toB) 1 ("b".toB) 2).destination_port)
        = (("b".toB : List Nat), (2 : Int))) ∧
    proxy_protocol (fun _ => false) .raise none none true
        (SocketBuffer.mk [goodLine] ([], 0) ⟨[], 0⟩)
      = (.ok none, ⟨[], ([], 0), ⟨[], 0⟩⟩) :=
  ⟨proxy_authenticate_default_and_fail_closed.1 ⟨"a".toB, 1, "b".toB, 2⟩
      (("b".toB : List Nat), (2 : Int)),
   proxy_authenticate_default_and_fail_closed.2 (fun _ => false) .raise none none
      (SocketBuffer.mk [goodLine] ([], 0) ⟨[], 0⟩) goodLine
      ⟨"192.168.0.1".toB, 56324, "192.168.0.11".toB, 443⟩ ⟨[], 0⟩ []
      (by simp [read_line, sockRecv, limitHit, findCRLF, goodLine, String.toB,
        BytesBuf.getvalue, BytesBuf.write, BytesBuf.seek0, BytesBuf.truncate])
      rfl rfl⟩
